import Mathlib

/-!
# Verification of `tensor_product_kr_tableaux_element.py`

A shallow embedding of the element wrapper
`TensorProductOfKirillovReshetikhinTableauxElement` from
`sage/combinat/rigged_configurations/tensor_product_kr_tableaux_element.py`,
together with proofs of the container-contract properties stated in the
module specification.

The factor objects (`KirillovReshetikhinTableauxElement`), the parent
container, and the bijection engine (`KRTToRCBijection`) are external
collaborators whose code is not part of the excerpt; they are modelled by
the data and operations the wrapper consumes from them, as described in
the specification's external-interface section.

Conventions of the embedding:
* Python exceptions (`IndexError` from out-of-range indexing, `ValueError`
  from `max()` on an empty sequence, factor-construction failures) are
  modelled with `Option`/`Except`: `none`/`.error` is a raised exception.
* Python's `print` output is modelled as an explicit `List String` channel
  returned next to the result.
* A Python method call `x.m()` is additionally given a state-passing
  translation `m_call : Element → Result × Element` recording the method's
  effect on the receiver; since no statement of any of the translated
  method bodies assigns to `self` or its factor list, each returns its
  input state unchanged.
-/

set_option autoImplicit false

namespace KRTElement

/-- An element of a Kirillov-Reshetikhin crystal, the codomain of the
factor-level filling-map inverse `to_kirillov_reshetikhin_crystal`.
External collaborator; modelled by its underlying data (the columns of
the crystal element, as printed by Sage, e.g. `[[[-1]], [[2], [-1]]]`). -/
structure KRCrystal where
  data : List (List ℤ)
deriving DecidableEq, Repr

/-- A factor of the tensor product: one Kirillov-Reshetikhin tableau
(`KirillovReshetikhinTableauxElement`).  External collaborator; modelled
by the interface the wrapper consumes from it:

* `symbols`   -- the underlying symbol data (the reversed-column reading
  word from which the tableau was built);
* `py_repr`   -- its single-line text form, `repr(factor)` in the source;
* `diagram`   -- the lines of `factor._repr_diagram()`, i.e. the result
  of `splitlines()` on the factor's multi-line diagram;
* `classical_weight` -- its classical weight, a vector in the ambient
  weight lattice of rank `n`;
* `to_kirillov_reshetikhin_crystal` -- the filling-map inverse. -/
structure Factor (n : ℕ) where
  symbols : List ℤ
  py_repr : String
  diagram : List String
  classical_weight : Fin n → ℤ
  to_kirillov_reshetikhin_crystal : KRCrystal

/-- The parent of a tensor product of Kirillov–Reshetikhin *crystals*
(not tableaux), an external collaborator; opaque to the wrapper. -/
structure TPKRCrystalsParent where
  id : ℕ
deriving DecidableEq, Repr

/-- An element of a tensor product of Kirillov–Reshetikhin crystals, the
result of `to_tensor_product_of_kirillov_reshetikhin_crystals`.  The call
`TP(*[...])` wraps the per-factor crystal elements, in order, as an
element of the parent `TP`. -/
structure TPKRCrystalsElement where
  parent : TPKRCrystalsParent
  components : List KRCrystal

/-- The parent container (`TensorProductOfKirillovReshetikhinTableaux`),
an external collaborator.  It supplies:

* `crystals` -- per factor position, the factor crystal: a constructor
  building a `Factor` from a raw symbol list, which fails (`.error`)
  when the symbol list is invalid for the declared factor shape;
  `crystals[i]` on an out-of-range `i` raises `IndexError`;
* `tensor_product_of_kirillov_reshetikhin_crystals` -- the corresponding
  tensor product of KR crystals parent. -/
structure Parent (n : ℕ) where
  crystals : List (List ℤ → Except String (Factor n))
  tensor_product_of_kirillov_reshetikhin_crystals : TPKRCrystalsParent

/-- An element of a tensor product of Kirillov–Reshetikhin tableaux:
the class `TensorProductOfKirillovReshetikhinTableauxElement`.  The
superclass `TensorProductOfRegularCrystalsElement` stores the parent and
the list of factors; the element has no other state. -/
structure TensorProductOfKirillovReshetikhinTableauxElement (n : ℕ) where
  parent : Parent n
  factors : List (Factor n)

/-- Abbreviation for the element type. -/
abbrev Element (n : ℕ) := TensorProductOfKirillovReshetikhinTableauxElement n

/-- Python's `str.join`: `sep.join l`. -/
def pyJoin (sep : String) : List String → String
  | [] => ""
  | [x] => x
  | x :: y :: xs => x ++ sep ++ pyJoin sep (y :: xs)

/-- The factor list built by the `pathlist` branch of `__init__`:
`[parent.crystals[i](*tab) for i, tab in enumerate(pathlist)]`, with `i`
starting at the given index.  Evaluation is left to right; an
out-of-range `parent.crystals[i]` raises `IndexError`, and a factor
constructor may itself fail; either failure aborts the comprehension. -/
def initFactors {n : ℕ} (parent : Parent n) : List (List ℤ) → ℕ → Except String (List (Factor n))
  | [], _ => .ok []
  | tab :: rest, i =>
    match parent.crystals[i]? with
    | none => .error "IndexError: tuple index out of range"
    | some crys =>
      match crys tab with
      | .error msg => .error msg
      | .ok f =>
        match initFactors parent rest (i + 1) with
        | .error msg => .error msg
        | .ok fs => .ok (f :: fs)

/-- The constructor argument: the source's `__init__` branches on whether
the `pathlist` option was supplied; otherwise the `list` argument (a list
of pre-built factor objects) is used. -/
inductive InitArg (n : ℕ) where
  | pathlist (pl : List (List ℤ))
  | factorList (l : List (Factor n))

/-- `__init__`: with the `pathlist` option, build each factor from its
raw symbol list via the parent's per-position factor crystal, then call
the superclass constructor, which stores the parent and the factor list;
without it, store the given pre-built factors directly. -/
def __init__ {n : ℕ} (parent : Parent n) : InitArg n → Except String (Element n)
  | .pathlist pl =>
    match initFactors parent pl 0 with
    | .error msg => .error msg
    | .ok factors => .ok ⟨parent, factors⟩
  | .factorList l => .ok ⟨parent, l⟩

/-- `_repr_`: `ret_str = repr(self[0])`, then for `i` in
`range(1, len(self))` append `" (X) " + repr(self[i])`.  On an element
with zero factors, `self[0]` raises `IndexError` (modelled as `none`). -/
def _repr_ {n : ℕ} (e : Element n) : Option String :=
  match e.factors with
  | [] => none
  | f :: rest => some (rest.foldl (fun acc x => acc ++ " (X) " ++ x.py_repr) f.py_repr)

/-- A string of `k` blanks, Python's `' ' * k`. -/
def spaces (k : ℕ) : String :=
  String.mk (List.replicate k ' ')

/-- The source's per-component column width,
`len(t) > 0 and len(t[0]) or 1`: the width of the component's first row
when the component is nonempty and that width is nonzero, else `1`. -/
def colLen (t : List String) : ℕ :=
  match t with
  | [] => 1
  | r :: _ => if r.length = 0 then 1 else r.length

/-- One slot of a non-first diagram row: `comp[c][row]` when `row` is in
range for component `c`, else `' ' * col_len[c]`. -/
def diagSlot (t : List String) (w : ℕ) (row : ℕ) : String :=
  if row < t.length then t.getD row "" else spaces w

/-- `_repr_diagram`: render the factors' diagrams side by side.

* `comp = [crys._repr_diagram().splitlines() for crys in self]` is the
  per-factor list of diagram lines (the factor's diagram is collaborator
  data, so `comp` is the list of `diagram` fields);
* `col_len` and `num_rows` as in the source; Python's `max` on an empty
  sequence (an element with zero factors) raises `ValueError`;
* the first output row joins `c[0]` over the components with `' (X) '`;
  `c[0]` raises `IndexError` when some component has zero rows;
* each later row `1 ≤ row < num_rows` appends, per component and with a
  five-blank separator in front of every component but the first
  (the width of `' (X) '`), the component's own row when it has one and
  `col_len` blanks otherwise.

The `if c > 0` separator insertion of the inner loop is `str.join`
semantics, rendered with `pyJoin`; the outer loop prepends `'\n'` to
every row after the first. -/
def _repr_diagram {n : ℕ} (e : Element n) : Option String :=
  let comp := e.factors.map Factor.diagram
  let col_len := comp.map colLen
  match (comp.map List.length).max? with
  | none => none
  | some num_rows =>
    if comp.any List.isEmpty then none
    else
      let first := pyJoin " (X) " (comp.map (fun c => c.headD ""))
      some ((List.range' 1 (num_rows - 1)).foldl
        (fun acc row =>
          acc ++ "\n" ++ pyJoin "     " ((comp.zip col_len).map (fun p => diagSlot p.1 p.2 row)))
        first)

/-- `classical_weight`: `sum([x.classical_weight() for x in self])`,
Python's `sum` folding `+` from the left over the list, starting at the
zero vector. -/
def classical_weight {n : ℕ} (e : Element n) : Fin n → ℤ :=
  (e.factors.map Factor.classical_weight).foldl (· + ·) 0

/-- `to_tensor_product_of_kirillov_reshetikhin_crystals`:
`TP = self.parent().tensor_product_of_kirillov_reshetikhin_crystals()`
then `TP(*[x.to_kirillov_reshetikhin_crystal() for x in self])`. -/
def to_tensor_product_of_kirillov_reshetikhin_crystals {n : ℕ} (e : Element n) :
    TPKRCrystalsElement :=
  { parent := e.parent.tensor_product_of_kirillov_reshetikhin_crystals
    components := e.factors.map Factor.to_kirillov_reshetikhin_crystal }

/-- Modelled from the spec: the rigged configuration produced by the
bijection engine.  The engine (`KRTToRCBijection` in
`sage.combinat.rigged_configurations.bijection`) is not part of the
excerpt; per the specification the map it computes is a bijection whose
inverse (`to_tensor_product_of_kirillov_reshetikhin_tableaux`)
reproduces the input element exactly, so the model represents the
rigged configuration by the data that determines it under the
bijection: the engine's own working record of the consumed input. -/
structure RiggedConfigurationElement (n : ℕ) where
  parent : Parent n
  processed : List (Factor n)

/-- Modelled from the spec: the bijection-engine instance
`KRTToRCBijection(self)`, seeded with the tensor-product element and
holding no other input state. -/
structure KRTToRCBijection (n : ℕ) where
  tp_krt : Element n

/-- Modelled from the spec: one diagnostic line of `display_steps`
output — the engine "optionally emitting intermediate state for
diagnostics" prints the factor currently being consumed. -/
def stepDescription {n : ℕ} (f : Factor n) : String :=
  f.py_repr

/-- Modelled from the spec: `KRTToRCBijection.run(display_steps)` walks
the element's factors in order to completion, threading its working
state through a deterministic step and, when `display_steps` is set,
printing a diagnostic line per step; the element itself is read-only
input.  Returns the terminal rigged configuration together with the
printed output channel. -/
def KRTToRCBijection.run {n : ℕ} (self : KRTToRCBijection n) (display_steps : Bool) :
    RiggedConfigurationElement n × List String :=
  let final := self.tp_krt.factors.foldl
    (fun (acc : List (Factor n) × List String) f =>
      (acc.1 ++ [f], if display_steps then acc.2 ++ [stepDescription f] else acc.2))
    ([], [])
  (⟨self.tp_krt.parent, final.1⟩, final.2)

/-- `to_rigged_configuration`:
`return KRTToRCBijection(self).run(display_steps)`.  The second
component is the diagnostic output channel (Python's stdout). -/
def to_rigged_configuration {n : ℕ} (e : Element n) (display_steps : Bool) :
    RiggedConfigurationElement n × List String :=
  (KRTToRCBijection.mk e).run display_steps

/-- Modelled from the spec: the inverse bijection
`RiggedConfigurationElement.to_tensor_product_of_kirillov_reshetikhin_tableaux`
(defined in `rigged_configuration_element.py`, not part of the excerpt),
which per the source's own documentation inverts
`to_rigged_configuration`: it rebuilds the tensor-product element
determined by the rigged configuration. -/
def RiggedConfigurationElement.to_tensor_product_of_kirillov_reshetikhin_tableaux
    {n : ℕ} (rc : RiggedConfigurationElement n) : Element n :=
  ⟨rc.parent, rc.processed⟩

/-- State-passing translation of a `_repr_` call: the body reads
`self[0]`, `len(self)` and `self[i]` and assigns nothing to `self`. -/
def _repr_call {n : ℕ} (e : Element n) : Option String × Element n :=
  (_repr_ e, e)

/-- State-passing translation of a `_repr_diagram` call: the body reads
the factors' diagrams and assigns nothing to `self`. -/
def _repr_diagram_call {n : ℕ} (e : Element n) : Option String × Element n :=
  (_repr_diagram e, e)

/-- State-passing translation of a `classical_weight` call: the body
reads the factors and assigns nothing to `self`. -/
def classical_weight_call {n : ℕ} (e : Element n) : (Fin n → ℤ) × Element n :=
  (classical_weight e, e)

/-- State-passing translation of a `to_rigged_configuration` call: the
body hands `self` to the engine, which treats it as read-only seed data
and builds its own working copy; nothing is assigned to `self`. -/
def to_rigged_configuration_call {n : ℕ} (e : Element n) (display_steps : Bool) :
    (RiggedConfigurationElement n × List String) × Element n :=
  (to_rigged_configuration e display_steps, e)

/-- State-passing translation of a
`to_tensor_product_of_kirillov_reshetikhin_crystals` call: the body
reads the parent and the factors and assigns nothing to `self`. -/
def to_tensor_product_of_kirillov_reshetikhin_crystals_call {n : ℕ} (e : Element n) :
    TPKRCrystalsElement × Element n :=
  (to_tensor_product_of_kirillov_reshetikhin_crystals e, e)

/-- The column width of a factor's diagram: the width of its first line. -/
def width {n : ℕ} (f : Factor n) : ℕ :=
  (f.diagram.headD "").length

/-- A factor's diagram is a well-formed rectangle: it has at least one
row, its rows all have the width of the first row, and that width is
positive. -/
def RectFactor {n : ℕ} (f : Factor n) : Prop :=
  f.diagram ≠ [] ∧ 0 < width f ∧ ∀ line ∈ f.diagram, line.length = width f

instance {n : ℕ} (f : Factor n) : Decidable (RectFactor f) := by
  unfold RectFactor; infer_instance

/-! ### Concrete sample data

A sample factor crystal, parent and elements used to evaluate the
definitions at concrete inputs. -/

/-- A sample factor built from a raw symbol list. -/
def mkF (tab : List ℤ) : Factor 4 :=
  { symbols := tab
    py_repr := "[[2]]"
    diagram := ["  2"]
    classical_weight := 0
    to_kirillov_reshetikhin_crystal := ⟨[tab]⟩ }

/-- A sample parent declaring two factors, each accepting any symbol
list. -/
def P2 : Parent 4 :=
  { crystals := [fun tab => .ok (mkF tab), fun tab => .ok (mkF tab)]
    tensor_product_of_kirillov_reshetikhin_crystals := ⟨0⟩ }

/-- The element built from `P2` with pathlist `[[1], [2]]`. -/
def e12 : Element 4 :=
  ⟨P2, [mkF [1], mkF [2]]⟩

/-- A sample factor whose diagram has two rows. -/
def fTall : Factor 4 :=
  { symbols := [2, 1]
    py_repr := "[[1], [2]]"
    diagram := ["  1", "  2"]
    classical_weight := 0
    to_kirillov_reshetikhin_crystal := ⟨[[1], [2]]⟩ }

/-- A sample factor whose diagram has one row. -/
def fShort : Factor 4 :=
  { symbols := [3]
    py_repr := "[[3]]"
    diagram := ["  3"]
    classical_weight := 0
    to_kirillov_reshetikhin_crystal := ⟨[[3]]⟩ }

/-- A sample factor whose diagram has zero rows. -/
def fZero : Factor 4 :=
  { symbols := []
    py_repr := ""
    diagram := []
    classical_weight := 0
    to_kirillov_reshetikhin_crystal := ⟨[]⟩ }

/-- An element whose factors have diagrams of different heights. -/
def e5 : Element 4 :=
  ⟨P2, [fTall, fShort]⟩

/-- An element one of whose factors has a zero-row diagram. -/
def e6 : Element 4 :=
  ⟨P2, [fTall, fZero]⟩

/-- The element with zero factors. -/
def e0 : Element 4 :=
  ⟨P2, []⟩

/-! ### Helper lemmas -/

theorem pyJoin_length (sep : String) :
    ∀ l : List String, l ≠ [] →
      (pyJoin sep l).length = (l.map String.length).sum + sep.length * (l.length - 1)
  | [], h => absurd rfl h
  | [x], _ => by simp [pyJoin]
  | x :: y :: xs, _ => by
    have ih := pyJoin_length sep (y :: xs) (List.cons_ne_nil y xs)
    simp only [pyJoin, String.length_append, List.map_cons, List.sum_cons, List.length_cons,
      Nat.add_sub_cancel] at *
    rw [ih, Nat.mul_succ]
    omega

theorem foldl_append_eq_pyJoin {α : Type} (sep : String) (g : α → String) :
    ∀ (xs : List α) (a : String),
      xs.foldl (fun acc x => acc ++ sep ++ g x) a = pyJoin sep (a :: xs.map g)
  | [], a => rfl
  | x :: xs, a => by
    have ih := foldl_append_eq_pyJoin sep g xs (a ++ sep ++ g x)
    simp only [List.foldl_cons, List.map_cons] at *
    rw [ih]
    cases xs <;> simp [pyJoin, String.append_assoc]

theorem spaces_length (k : ℕ) : (spaces k).length = k := by
  simp [spaces]

theorem colLen_eq_width {n : ℕ} (f : Factor n) (hf : RectFactor f) :
    colLen f.diagram = width f := by
  obtain ⟨hne, hpos, hall⟩ := hf
  cases hd : f.diagram with
  | nil => exact absurd hd hne
  | cons r rest =>
    have hr : r.length = width f := hall r (hd ▸ List.mem_cons_self r rest)
    have hne0 : ¬ r.length = 0 := by omega
    simp only [hd, colLen, if_neg hne0]
    exact hr

theorem diagSlot_length {n : ℕ} (f : Factor n) (hf : RectFactor f) (row : ℕ) :
    (diagSlot f.diagram (colLen f.diagram) row).length = width f := by
  unfold diagSlot
  by_cases h : row < f.diagram.length
  · simp only [if_pos h]
    have : f.diagram.getD row "" = f.diagram.get ⟨row, h⟩ := by
      simp [List.getD_eq_getElem?_getD, List.getElem?_eq_getElem h]
    rw [this]
    exact hf.2.2 _ (List.get_mem _ _ _)
  · simp only [if_neg h, spaces_length, colLen_eq_width f hf]

theorem zip_colLen_slot (row : ℕ) :
    ∀ l : List (List String),
      ((l.zip (l.map colLen)).map fun p => diagSlot p.1 p.2 row) =
        l.map fun t => diagSlot t (colLen t) row
  | [] => rfl
  | t :: l => by
    simp only [List.map_cons, List.zip_cons_cons]
    exact congrArg _ (zip_colLen_slot row l)

theorem slot_lengths {n : ℕ} (row : ℕ) :
    ∀ fs : List (Factor n), (∀ f ∈ fs, RectFactor f) →
      (((fs.map Factor.diagram).map fun t => diagSlot t (colLen t) row).map String.length) =
        fs.map width
  | [], _ => rfl
  | f :: fs, h => by
    simp only [List.map_cons, List.cons.injEq]
    exact ⟨diagSlot_length f (h f (List.mem_cons_self f fs)) row,
      slot_lengths row fs fun g hg => h g (List.mem_cons_of_mem f hg)⟩

theorem head_lengths {n : ℕ} :
    ∀ fs : List (Factor n), (∀ f ∈ fs, RectFactor f) →
      (((fs.map Factor.diagram).map fun c => c.headD "").map String.length) = fs.map width
  | [], _ => rfl
  | f :: fs, h => by
    simp only [List.map_cons, List.cons.injEq]
    refine ⟨?_, head_lengths fs fun g hg => h g (List.mem_cons_of_mem f hg)⟩
    have hf := h f (List.mem_cons_self f fs)
    cases hd : f.diagram with
    | nil => exact absurd hd hf.1
    | cons r rest =>
      have : r.length = width f := hf.2.2 r (hd ▸ List.mem_cons_self r rest)
      simpa using this

theorem engine_foldl_fst {n : ℕ} (b : Bool) :
    ∀ (fs : List (Factor n)) (acc : List (Factor n) × List String),
      (fs.foldl (fun (acc : List (Factor n) × List String) f =>
        (acc.1 ++ [f], if b then acc.2 ++ [stepDescription f] else acc.2)) acc).1 =
        acc.1 ++ fs
  | [], acc => by simp
  | f :: fs, acc => by
    rw [List.foldl_cons, engine_foldl_fst b fs]
    simp

theorem weight_foldl_apply {n : ℕ} :
    ∀ (l : List (Fin n → ℤ)) (a : Fin n → ℤ) (k : Fin n),
      (l.foldl (· + ·) a) k = a k + (l.map fun w => w k).sum
  | [], a, k => by simp
  | w :: l, a, k => by
    rw [List.foldl_cons, weight_foldl_apply l (a + w) k]
    simp only [List.map_cons, List.sum_cons, Pi.add_apply]
    ring

theorem initFactors_length {n : ℕ} (parent : Parent n) :
    ∀ (pl : List (List ℤ)) (i : ℕ) (fs : List (Factor n)),
      initFactors parent pl i = .ok fs → fs.length = pl.length
  | [], _, fs, h => by
    simp only [initFactors] at h
    cases h
    rfl
  | tab :: rest, i, fs, h => by
    cases hc : parent.crystals[i]? with
    | none => simp [initFactors, hc] at h
    | some crys =>
      cases hf : crys tab with
      | error msg => simp [initFactors, hc, hf] at h
      | ok f =>
        cases hr : initFactors parent rest (i + 1) with
        | error msg => simp [initFactors, hc, hf, hr] at h
        | ok fs' =>
          simp only [initFactors, hc, hf, hr] at h
          cases h
          simp [initFactors_length parent rest (i + 1) fs' hr]

theorem initFactors_overflow {n : ℕ} (parent : Parent n) :
    ∀ (pl : List (List ℤ)) (i : ℕ),
      parent.crystals.length < i + pl.length → i ≤ parent.crystals.length →
      ∃ msg, initFactors parent pl i = .error msg
  | [], i, hlt, hle => by
    simp only [List.length_nil] at hlt
    omega
  | tab :: rest, i, hlt, hle => by
    simp only [List.length_cons] at hlt
    by_cases hi : i < parent.crystals.length
    · cases hc : parent.crystals[i]? with
      | none =>
        rw [List.getElem?_eq_getElem hi] at hc
        exact absurd hc (by simp)
      | some crys =>
        cases hf : crys tab with
        | error msg => exact ⟨msg, by simp [initFactors, hc, hf]⟩
        | ok f =>
          obtain ⟨msg, hrec⟩ := initFactors_overflow parent rest (i + 1)
            (by omega) (by omega)
          exact ⟨msg, by simp [initFactors, hc, hf, hrec]⟩
    · have hnone : parent.crystals[i]? = none := List.getElem?_eq_none (by omega)
      exact ⟨"IndexError: tuple index out of range", by simp [initFactors, hnone]⟩

/-! ### Claim theorems -/

/-- C3: for every element with at least one factor, `_repr_` returns
exactly the concatenation of the factors' own single-line
representations, in factor order, joined by the separator `" (X) "`. -/
theorem C3_render_consistency {n : ℕ} (e : Element n) (h : e.factors ≠ []) :
    _repr_ e = some (pyJoin " (X) " (e.factors.map Factor.py_repr)) := by
  cases hf : e.factors with
  | nil => exact absurd hf h
  | cons f rest =>
    simp only [_repr_, hf, List.map_cons]
    rw [foldl_append_eq_pyJoin]

/-- Witness for C3, at the two-factor element `e12`. -/
theorem C3_render_consistency_witness :
    e12.factors ≠ [] ∧ _repr_ e12 = some (pyJoin " (X) " (e12.factors.map Factor.py_repr)) :=
  ⟨List.cons_ne_nil _ _, C3_render_consistency e12 (List.cons_ne_nil _ _)⟩

/-- C10: `_repr_` is total exactly on elements with at least one
factor: it fails (out-of-range access, modelled by `none`) on the
element with zero factors, and succeeds on every element with one or
more factors. -/
theorem C10_render_partiality {n : ℕ} (e : Element n) :
    (e.factors = [] → _repr_ e = none) ∧
      (e.factors ≠ [] → (_repr_ e).isSome = true) := by
  refine ⟨fun h => by simp [_repr_, h], fun h => ?_⟩
  cases hf : e.factors with
  | nil => exact absurd hf h
  | cons f rest => simp [_repr_, hf]

/-- Witness for C10: `_repr_` fails on the zero-factor element `e0` and
succeeds on the two-factor element `e12`. -/
theorem C10_render_partiality_witness :
    _repr_ e0 = none ∧ (_repr_ e12).isSome = true :=
  ⟨(C10_render_partiality e0).1 rfl, (C10_render_partiality e12).2 (List.cons_ne_nil _ _)⟩

/-- C4: `classical_weight` equals the vector sum, in the ambient weight
lattice, of the classical weights of the element's factors: at every
coordinate it is the sum of the factors' weights at that coordinate. -/
theorem C4_weight_additivity {n : ℕ} (e : Element n) (k : Fin n) :
    classical_weight e k = (e.factors.map fun f => f.classical_weight k).sum := by
  unfold classical_weight
  rw [weight_foldl_apply]
  simp [List.map_map, Function.comp_def]

/-- C2 counterexample: at the parent `P2`, which declares two factors,
the pathlist `[[1]]` of length one is accepted without any construction
error, producing an element with a single factor — the construction
does not fail on this length mismatch. -/
theorem C2_counterexample :
    ([[(1 : ℤ)]].length ≠ P2.crystals.length) ∧
      (__init__ P2 (.pathlist [[1]])).isOk = true ∧
      ((__init__ P2 (.pathlist [[1]])).toOption.map fun e => e.factors.length) = some 1 :=
  ⟨by decide, rfl, rfl⟩

/-- C2 (amended): a pathlist longer than the parent's declared factor
count makes construction fail with an error (no element is returned);
a successful construction always yields exactly one factor per pathlist
entry (the pathlist itself is never truncated or padded); but a
pathlist shorter than the declared factor count is not rejected — it
can succeed, producing an element with fewer factors than declared. -/
theorem C2_construction_rejection_amended {n : ℕ} (parent : Parent n) (pl : List (List ℤ)) :
    (parent.crystals.length < pl.length →
      ∃ msg, __init__ parent (.pathlist pl) = .error msg) ∧
      (∀ e, __init__ parent (.pathlist pl) = .ok e →
        e.parent = parent ∧ e.factors.length = pl.length) := by
  constructor
  · intro hlt
    obtain ⟨msg, h⟩ := initFactors_overflow parent pl 0 (by omega) (Nat.zero_le _)
    exact ⟨msg, by simp [__init__, h]⟩
  · intro e he
    cases hr : initFactors parent pl 0 with
    | error msg => simp [__init__, hr] at he
    | ok fs =>
      simp only [__init__, hr] at he
      cases he
      exact ⟨rfl, initFactors_length parent pl 0 fs hr⟩

/-- Witness for the amended C2: at `P2` (two declared factors) a
three-entry pathlist is rejected, and the accepted two-entry pathlist
`[[1], [2]]` yields the element `e12` with exactly two factors. -/
theorem C2_construction_rejection_amended_witness :
    (∃ msg, __init__ P2 (.pathlist [[1], [2], [3]]) = .error msg) ∧
      (e12.parent = P2 ∧ e12.factors.length = [[(1 : ℤ)], [2]].length) :=
  ⟨(C2_construction_rejection_amended P2 [[1], [2], [3]]).1 (by decide),
    (C2_construction_rejection_amended P2 [[1], [2]]).2 e12 rfl⟩

/-- C8: `to_tensor_product_of_kirillov_reshetikhin_crystals` applies
each factor's filling-map inverse independently per factor and in
factor order — the `i`-th component of the result is exactly the image
of the `i`-th factor — and reassembles the results as an element of the
parent's corresponding tensor product of KR crystals. -/
theorem C8_to_tp_of_kr_crystals {n : ℕ} (e : Element n) :
    (to_tensor_product_of_kirillov_reshetikhin_crystals e).parent =
      e.parent.tensor_product_of_kirillov_reshetikhin_crystals ∧
      (to_tensor_product_of_kirillov_reshetikhin_crystals e).components.length =
        e.factors.length ∧
      ∀ i : ℕ, (to_tensor_product_of_kirillov_reshetikhin_crystals e).components[i]? =
        (e.factors[i]?).map Factor.to_kirillov_reshetikhin_crystal := by
  refine ⟨rfl, by simp [to_tensor_product_of_kirillov_reshetikhin_crystals], fun i => ?_⟩
  simp [to_tensor_product_of_kirillov_reshetikhin_crystals]

/-- C9: `to_rigged_configuration` returns the same rigged configuration
whether `display_steps` is true or false — the flag only toggles the
diagnostic output channel. -/
theorem C9_display_steps_irrelevant {n : ℕ} (e : Element n) (b : Bool) :
    (to_rigged_configuration e b).1 = (to_rigged_configuration e false).1 := by
  unfold to_rigged_configuration KRTToRCBijection.run
  simp only [engine_foldl_fst]

/-- C7: the read-only operations — `_repr_`, `_repr_diagram`,
`classical_weight`, `to_rigged_configuration` (for either value of the
display flag), and `to_tensor_product_of_kirillov_reshetikhin_crystals`
— leave the element's state (parent and factor sequence) unchanged, and
the element consists of nothing but that state: it holds no bijection
state. -/
theorem C7_readonly_frame {n : ℕ} (e : Element n) (b : Bool) :
    (_repr_call e).2 = e ∧
      (_repr_diagram_call e).2 = e ∧
      (classical_weight_call e).2 = e ∧
      (to_rigged_configuration_call e b).2 = e ∧
      (to_tensor_product_of_kirillov_reshetikhin_crystals_call e).2 = e ∧
      e = ⟨e.parent, e.factors⟩ :=
  ⟨rfl, rfl, rfl, rfl, rfl, rfl⟩

/-- C1: for every element constructed from a pathlist, applying
`to_rigged_configuration` and then the inverse bijection reproduces the
original element exactly — on the element itself, on its rendered form,
and on the underlying factor symbol data — for either value of the
display flag. -/
theorem C1_round_trip {n : ℕ} (parent : Parent n) (pl : List (List ℤ)) (e : Element n)
    (h : __init__ parent (.pathlist pl) = .ok e) (b : Bool) :
    ((to_rigged_configuration e b).1).to_tensor_product_of_kirillov_reshetikhin_tableaux = e ∧
      _repr_ (((to_rigged_configuration e b).1).to_tensor_product_of_kirillov_reshetikhin_tableaux) =
        _repr_ e ∧
      ((((to_rigged_configuration e b).1).to_tensor_product_of_kirillov_reshetikhin_tableaux).factors.map
        Factor.symbols) = e.factors.map Factor.symbols := by
  have key :
      ((to_rigged_configuration e b).1).to_tensor_product_of_kirillov_reshetikhin_tableaux = e := by
    unfold to_rigged_configuration KRTToRCBijection.run
      RiggedConfigurationElement.to_tensor_product_of_kirillov_reshetikhin_tableaux
    simp only [engine_foldl_fst, List.nil_append]
  exact ⟨key, by rw [key], by rw [key]⟩

/-- Witness for C1, at the element `e12` constructed from the pathlist
`[[1], [2]]`, with diagnostic output enabled. -/
theorem C1_round_trip_witness :
    __init__ P2 (.pathlist [[1], [2]]) = .ok e12 ∧
      ((to_rigged_configuration e12 true).1).to_tensor_product_of_kirillov_reshetikhin_tableaux =
        e12 :=
  ⟨rfl, (C1_round_trip P2 [[1], [2]] e12 rfl true).1⟩

/-- C5: on an element whose factors' diagrams are well-formed nonempty
rectangles, `_repr_diagram` succeeds; its output is a newline-joined
list of rows whose first row joins the factors' first diagram lines
with the `" (X) "` separator, and every output row has length equal to
the sum of the factors' own column widths plus the five-character
separator width between consecutive factor columns — each factor's
slot width is its own diagram width, independent of which factors have
more rows. -/
theorem C5_diagram_alignment {n : ℕ} (e : Element n) (hne : e.factors ≠ [])
    (hrect : ∀ f ∈ e.factors, RectFactor f) :
    ∃ rows : List String,
      _repr_diagram e = some (pyJoin "\n" rows) ∧
      rows.head? = some (pyJoin " (X) " (e.factors.map fun f => f.diagram.headD "")) ∧
      ∀ r ∈ rows, r.length = (e.factors.map width).sum + 5 * (e.factors.length - 1) := by
  have hcompne : e.factors.map Factor.diagram ≠ [] := by simpa using hne
  have hany : (e.factors.map Factor.diagram).any List.isEmpty = false := by
    rw [List.any_eq_false]
    intro t ht
    obtain ⟨f, hf, rfl⟩ := List.mem_map.mp ht
    simpa [List.isEmpty_iff] using (hrect f hf).1
  cases hm : ((e.factors.map Factor.diagram).map List.length).max? with
  | none =>
    exact absurd (by simpa using List.max?_eq_none_iff.mp hm) hcompne
  | some m =>
    refine ⟨pyJoin " (X) " ((e.factors.map Factor.diagram).map fun c => c.headD "") ::
      (List.range' 1 (m - 1)).map (fun row =>
        pyJoin "     " (((e.factors.map Factor.diagram).zip
          ((e.factors.map Factor.diagram).map colLen)).map fun p => diagSlot p.1 p.2 row)),
      ?_, ?_, ?_⟩
    · simp only [_repr_diagram]
      rw [hm]
      simp only [hany, Bool.false_eq_true, if_false, if_neg]
      rw [foldl_append_eq_pyJoin "\n"
        (fun row => pyJoin "     " (((e.factors.map Factor.diagram).zip
          ((e.factors.map Factor.diagram).map colLen)).map fun p => diagSlot p.1 p.2 row))
        (List.range' 1 (m - 1))
        (pyJoin " (X) " ((e.factors.map Factor.diagram).map fun c => c.headD ""))]
    · simp [List.map_map, Function.comp_def]
    · intro r hr
      rcases List.mem_cons.mp hr with hr1 | hr2
      · subst hr1
        have hne' : (e.factors.map Factor.diagram).map (fun c => c.headD "") ≠ [] := by
          simpa using hne
        rw [pyJoin_length _ _ hne', head_lengths e.factors hrect]
        have hsep : (" (X) " : String).length = 5 := rfl
        simp [hsep, Nat.mul_comm]
      · obtain ⟨row, _, rfl⟩ := List.mem_map.mp hr2
        rw [zip_colLen_slot row (e.factors.map Factor.diagram)]
        have hne' : (e.factors.map Factor.diagram).map
            (fun t => diagSlot t (colLen t) row) ≠ [] := by
          simpa using hne
        rw [pyJoin_length _ _ hne', slot_lengths row e.factors hrect]
        have hsep : ("     " : String).length = 5 := rfl
        simp [hsep, Nat.mul_comm]

/-- Witness for C5, at the element `e5` whose first factor has a
two-row diagram and whose second factor has a one-row diagram. -/
theorem C5_diagram_alignment_witness :
    (e5.factors ≠ [] ∧ ∀ f ∈ e5.factors, RectFactor f) ∧
      ∃ rows : List String,
        _repr_diagram e5 = some (pyJoin "\n" rows) ∧
        rows.head? = some (pyJoin " (X) " (e5.factors.map fun f => f.diagram.headD "")) ∧
        ∀ r ∈ rows, r.length = (e5.factors.map width).sum + 5 * (e5.factors.length - 1) :=
  ⟨⟨List.cons_ne_nil _ _, by decide⟩,
    C5_diagram_alignment e5 (List.cons_ne_nil _ _) (by decide)⟩

/-- C6 counterexample: on the element `e6`, whose second factor has a
zero-row diagram, `_repr_diagram` does not succeed — the first-row join
reads each factor's first diagram line and raises an out-of-range
access (modelled by `none`). -/
theorem C6_counterexample : _repr_diagram e6 = none := rfl

/-- C6 (amended): an element containing a factor with a zero-row
diagram makes `_repr_diagram` fail (out-of-range access in the
first-row join) instead of degrading gracefully; the one-column blank
placeholder (`col_len` of an empty component is `1`) applies only to
output rows after the first, which are never reached. -/
theorem C6_zero_row_factor_amended (n : ℕ) :
    (∀ e : Element n, (∃ f ∈ e.factors, f.diagram = []) → _repr_diagram e = none) ∧
      colLen [] = 1 := by
  refine ⟨fun e he => ?_, rfl⟩
  obtain ⟨f, hf, hdiag⟩ := he
  have hanyT : (e.factors.map Factor.diagram).any List.isEmpty = true := by
    rw [List.any_eq_true]
    exact ⟨f.diagram, List.mem_map_of_mem Factor.diagram hf, by simp [hdiag]⟩
  cases hm : ((e.factors.map Factor.diagram).map List.length).max? with
  | none =>
    simp only [_repr_diagram]
    rw [hm]
  | some m =>
    simp only [_repr_diagram]
    rw [hm]
    simp [hanyT]

/-- Witness for the amended C6, at the element `e6` containing the
zero-row factor `fZero`. -/
theorem C6_zero_row_factor_amended_witness : _repr_diagram e6 = none :=
  (C6_zero_row_factor_amended 4).1 e6
    ⟨fZero, List.mem_cons_of_mem fTall (List.mem_cons_self fZero []), rfl⟩

end KRTElement
